import Mathlib

/-!
Verification development for the molfeat cache layer
(`molfeat/utils/cache.py`): the molecular key deriver (`MolToKey`), the
in-memory data cache (`_Cache` base behaviour as realised by `DataCache`),
the tabular file cache (`FileCache`) and the fallback-chain composite
(`CacheList`), shallowly embedded as executable Lean definitions.

Modelling conventions:
- Domain objects (molecules) and cache keys are strings.
- Feature values are integer lists (`Val`); a Python value slot that may
  hold `None` is `Option Val` (`PyVal`), with `none` standing for `None`.
- Python dictionaries are association lists with overwrite-in-place
  insertion (`dictInsert`) and first-match lookup (`dictFind`); a dict
  built only through `dictInsert` never holds duplicate keys, so
  first-match and last-match lookup agree.
- `dm.parallelized(fn, xs, ...)` is an order-preserving map, so it is
  modelled as `List.map` (the source requires order preservation
  regardless of the degree of parallelism).
- Raised exceptions are modelled with `Except PyError`.
- The featurizer-calling operations additionally return the list of
  batches the featurizer was invoked on, so that invocation counts and
  invocation arguments are part of the observable behaviour.
-/

/-- Domain objects (molecules, or SMILES strings) are modelled as strings. -/
abbrev Mol := String

/-- Cache keys are modelled as strings. -/
abbrev Key := String

/-- Feature values: fixed-shape numeric arrays, modelled as integer lists. -/
abbrev Val := List Int

/-- A Python value slot: `none` models Python `None`. -/
abbrev PyVal := Option Val

/-- The Python exceptions raised by `molfeat/utils/cache.py`. -/
inductive PyError where
  | valueError (msg : String)
  | keyError (key : String)
  | attributeError (name : String)
  | notImplementedError (msg : String)
  deriving Repr, DecidableEq

/-- First-match lookup in an association list, modelling Python dict
lookup (`d[k]` / `d.get(k)`). -/
def dictFind {α : Type} : List (String × α) → String → Option α
  | [], _ => none
  | (k, v) :: t, key => if k = key then some v else dictFind t key

/-- Overwrite-in-place insertion in an association list, modelling Python
dict assignment `d[k] = v` (an existing binding is replaced in place, a
new binding is appended). -/
def dictInsert {α : Type} : List (String × α) → String → α → List (String × α)
  | [], key, v => [(key, v)]
  | (k, w) :: t, key, v =>
    if k = key then (key, v) :: t else (k, w) :: dictInsert t key v

/-- Modelled external function: `dm.unique_id` from the datamol library
(an injective canonical identifier for a molecule; its exact output is
irrelevant to the cache layer and only used opaquely). -/
def dm_unique_id : Mol → Key := fun m => String.append "uid-" m

/-- Modelled external function: `dm.to_inchikey` from the datamol library. -/
def dm_to_inchikey : Mol → Key := fun m => String.append "inchikey-" m

/-- Modelled external predicate: whether `dm.to_mol(mol)` succeeds (returns
non-`None`), i.e. the object parses as a well-formed molecule. -/
def dm_to_mol_ok : Mol → Bool := fun m => m ≠ ""

/-- The argument accepted by `MolToKey.__init__` for `hash_fn`: either a
caller-supplied callable or a strategy name; `Option` wraps the whole
argument, `none` modelling an explicit Python `None`. -/
inductive HashArg where
  | fn (f : Mol → Key)
  | name (s : String)

/-- `MolToKey`: `molfeat/utils/cache.py` lines 36-98.  Holds the resolved
hash function and the optional strategy name (`hash_name`, `none` when the
function was caller-supplied and hence unnamed). -/
structure MolToKey where
  hash_fn : Mol → Key
  hash_name : Option String

/-- `MolToKey.SUPPORTED_HASH_FN`: the closed registry of named
canonicalization strategies. -/
def SUPPORTED_HASH_FN : List (String × (Mol → Key)) :=
  [("dm.unique_id", dm_unique_id), ("dm.to_inchikey", dm_to_inchikey)]

/-- `MolToKey.__init__` (cache.py lines 44-67): a string argument must name
a registry entry (otherwise `ValueError`); a callable argument is stored
with `hash_name = None`; an explicit `None` argument falls back to
`dm.unique_id` under its registry name.  The Python default argument is
the string `"dm.unique_id"`. -/
def MolToKey.init (hash_fn : Option HashArg) : Except PyError MolToKey :=
  match hash_fn with
  | some (HashArg.name s) =>
    match dictFind SUPPORTED_HASH_FN s with
    | some f => Except.ok ⟨f, some s⟩
    | none => Except.error (PyError.valueError (String.append "Hash function is not supported: " s))
  | some (HashArg.fn f) => Except.ok ⟨f, none⟩
  | none => Except.ok ⟨dm_unique_id, some "dm.unique_id"⟩

/-- `MolToKey.__call__` (cache.py lines 69-80): hash the object when it
parses as a molecule, otherwise return it unchanged as a degenerate key. -/
def MolToKey.call (mtk : MolToKey) (mol : Mol) : Key :=
  if dm_to_mol_ok mol then mtk.hash_fn mol else mol

/-- `MolToKey.to_state_dict` (cache.py lines 82-93): raises `ValueError`
when the hash function was supplied as a bare callable (`hash_name` unset);
otherwise the state dict holds exactly the strategy name, modelled as that
string. -/
def MolToKey.to_state_dict (mtk : MolToKey) : Except PyError String :=
  match mtk.hash_name with
  | none => Except.error (PyError.valueError "cannot serialize: hash function was provided as a function, not a string")
  | some s => Except.ok s

/-- `MolToKey.from_state_dict` (cache.py lines 95-98): reconstruct through
the constructor from the stored strategy name. -/
def MolToKey.from_state_dict (s : String) : Except PyError MolToKey :=
  MolToKey.init (some (HashArg.name s))

/-- Boolean success test for an `Except` result. -/
def exOk {α : Type} : Except PyError α → Bool
  | Except.ok _ => true
  | Except.error _ => false

/-- A featurizer (external interface): a batch function from objects to
feature values, with an optionally declared output dtype.  The dtype cast
`datatype.cast(features, dtype)` is repository code outside the provided
sources; modelled from the spec: "apply any declared output dtype cast",
as an elementwise transformation of the returned batch. -/
structure Featurizer where
  fn : List Mol → List PyVal
  dtype : Option (PyVal → PyVal)

/-- Apply the declared dtype cast when present (cache.py lines 205-207). -/
def Featurizer.applyCast (f : Featurizer) (features : List PyVal) : List PyVal :=
  match f.dtype with
  | some c => features.map c
  | none => features

/-- The in-memory data cache: the `_Cache` interface (cache.py lines
101-288) as realised by `DataCache` (lines 290-412) with no durable
backing file (`cache_file=None`, so `self.cache` is a plain dict and
`_sync_cache` is a no-op).  `mol_hasher` is the (deep-copied) `MolToKey`
callable, modelled as its underlying pure function. -/
structure DataCache where
  mol_hasher : Mol → Key
  cache : List (Key × PyVal)

/-- `_Cache.__contains__` (cache.py lines 136-142): hash the argument, then
test dict membership. -/
def DataCache.containsKey (c : DataCache) (key : Mol) : Bool :=
  (dictFind c.cache (c.mol_hasher key)).isSome

/-- `_Cache.get` (cache.py lines 220-227): hash the argument, then
`dict.get` with a default. -/
def DataCache.get (c : DataCache) (key : Mol) (default : PyVal) : PyVal :=
  (dictFind c.cache (c.mol_hasher key)).getD default

/-- `DataCache.update` (cache.py lines 364-373): for each item, hash the
key and assign into the dict, in iteration order.  `__setitem__`
(lines 152-159) is `update` with a single pair. -/
def DataCache.updateList (c : DataCache) (new_cache : List (Mol × PyVal)) : DataCache :=
  { c with
    cache := new_cache.foldl (fun acc kv => dictInsert acc (c.mol_hasher kv.1) kv.2) c.cache }

/-- `_Cache.fetch` (cache.py lines 248-268): derive all keys (ordered
parallel map), then `get` each derived key with default `None`. -/
def DataCache.fetch (c : DataCache) (mols : List Mol) : List PyVal :=
  (mols.map c.mol_hasher).map (fun mol_id => c.get mol_id none)

/-- Result of a compute-or-fetch call: the returned feature list, the
post-call cache state, and the list of batches the featurizer was invoked
on (one entry per invocation). -/
structure ComputeResult where
  out : List PyVal
  post : DataCache
  calls : List (List Mol)

/-- `_Cache.__call__` (cache.py lines 161-211): derive all keys (ordered
parallel map over the deep-copied hasher), keep the `(mol_id, mol)` pairs
whose id is not already contained (note `__contains__` hashes its argument
again), invoke the featurizer once on the full unseen batch when it is
non-empty, apply the declared dtype cast, write each `(unseen_id, feature)`
pair through `__setitem__` (which hashes the key again), sync (a no-op for
the in-memory dict), and finally return `self.fetch(mols)` over the
original input list. -/
def DataCache.compute (c : DataCache) (mols : List Mol) (featurizer : Featurizer) :
    ComputeResult :=
  let mol_ids := mols.map c.mol_hasher
  let pairs := (mol_ids.zip mols).filter (fun p => ! c.containsKey p.1)
  let unseen_ids := pairs.map Prod.fst
  let mol_queries := pairs.map Prod.snd
  if 0 < mol_queries.length then
    let features := featurizer.applyCast (featurizer.fn mol_queries)
    let c2 := c.updateList (unseen_ids.zip features)
    ⟨c2.fetch mols, c2, [mol_queries]⟩
  else
    ⟨c.fetch mols, c, []⟩

/-- The sub-list of input objects whose derived key is not already
contained in the cache (in input order): the `mol_queries` batch that
`_Cache.__call__` builds at cache.py lines 193-199. -/
def DataCache.unseenQueries (c : DataCache) (mols : List Mol) : List Mol :=
  mols.filter (fun m => ! c.containsKey (c.mol_hasher m))

/-- `CacheList` (cache.py lines 688-784): a proxy over an ordered list of
member caches.  Members are modelled as in-memory data caches.  Note that
`CacheList` is a plain class (no base class): its `__init__` sets exactly
one attribute, `self.caches`. -/
structure CacheList where
  caches : List DataCache

/-- The attribute names a `CacheList` instance defines: `__init__`
(cache.py lines 691-692) sets only `self.caches`, and no other method adds
an attribute. -/
def CacheList.attrNames : List String := ["caches"]

/-- Python attribute lookup on a `CacheList` instance: `self.caches` is
defined, any other attribute read raises `AttributeError`. -/
def CacheList.getattr (cl : CacheList) (name : String) : Except PyError (List DataCache) :=
  if name ∈ CacheList.attrNames then Except.ok cl.caches
  else Except.error (PyError.attributeError name)

/-- `CacheList.get` probe loop (cache.py lines 751-755): ask each member
`cache.get(key)` (default `None`); the first non-`None` value wins,
otherwise return the supplied default. -/
def CacheList.getAux : List DataCache → Mol → PyVal → PyVal
  | [], _, default => default
  | c :: rest, key, default =>
    match c.get key none with
    | some v => some v
    | none => CacheList.getAux rest key default

/-- `CacheList.get` (cache.py lines 745-755). -/
def CacheList.get (cl : CacheList) (key : Mol) (default : PyVal) : PyVal :=
  CacheList.getAux cl.caches key default

/-- `CacheList.__getitem__` probe loop (cache.py lines 694-699): first
non-`None` member value wins, otherwise raise `KeyError`. -/
def CacheList.getItemAux : List DataCache → Mol → Except PyError Val
  | [], key => Except.error (PyError.keyError key)
  | c :: rest, key =>
    match c.get key none with
    | some v => Except.ok v
    | none => CacheList.getItemAux rest key

/-- `CacheList.__getitem__` (cache.py lines 694-699). -/
def CacheList.getItem (cl : CacheList) (key : Mol) : Except PyError Val :=
  CacheList.getItemAux cl.caches key

/-- `CacheList.__contains__` (cache.py lines 701-706): `any(key in cache
for cache in self.caches)` (each member's `__contains__` hashes the key). -/
def CacheList.containsKey (cl : CacheList) (key : Mol) : Bool :=
  cl.caches.any (fun c => c.containsKey key)

/-- Replace the element at an index of a list (identity when the index is
out of range): the effect of mutating the member returned by
`random.choice(self.caches)`, with the random draw made explicit as the
chosen index. -/
def modifyIdx {α : Type} : List α → Nat → (α → α) → List α
  | [], _, _ => []
  | x :: t, 0, f => f x :: t
  | x :: t, n + 1, f => x :: modifyIdx t n f

/-- `CacheList.update` (cache.py lines 741-743): pick one member at random
(`choice` is the index drawn by `random.choice`) and write the whole batch
only there, through that member's `update`.  `__setitem__` (lines 716-725)
is the single-pair case. -/
def CacheList.update (cl : CacheList) (choice : Nat) (new_cache : List (Mol × PyVal)) :
    CacheList :=
  ⟨modifyIdx cl.caches choice (fun c => c.updateList new_cache)⟩

/-- `CacheList.__call__` (cache.py lines 727-734): unconditionally raises
`NotImplementedError` before touching the featurizer or any member, so the
featurizer invocation list is empty and the state is returned unchanged. -/
def CacheList.call (cl : CacheList) (_mols : List Mol) (_featurizer : Featurizer) :
    Except PyError (List PyVal) × CacheList × List (List Mol) :=
  (Except.error (PyError.notImplementedError
      "Dynamic updating of a cache list using a featurizer is not supported!"),
    cl, [])

/-- `CacheList.__iter__` (cache.py lines 712-714): evaluates
`itertools.chain(*iter(self.cache))` — an attribute read of `self.cache`,
which `CacheList` never defines (the members live in `self.caches`).  Were
the attribute present, the chain of the members' iterators (each member
iterates over its dict keys) would be returned. -/
def CacheList.iter (cl : CacheList) : Except PyError (List Key) :=
  match cl.getattr "cache" with
  | Except.error e => Except.error e
  | Except.ok caches => Except.ok (caches.map (fun c => c.cache.map Prod.fst)).flatten

/-- Modelled from the spec: `molfeat.utils.commons.pack_bits` (repository
code outside the provided sources) — the text-encoded bit-packed binary
form of one array value used by the csv encoding; the spec requires only
that it is reversible by `unpack_bits`.  Modelled as a wrapper holding the
packed array. -/
structure PackedBits where
  blob : Val
  deriving Repr, DecidableEq

/-- Modelled from the spec: `molfeat.utils.commons.pack_bits` — pack one
array value into its text-encoded bit-packed form. -/
def pack_bits (v : Val) : PackedBits := ⟨v⟩

/-- Modelled from the spec: `molfeat.utils.commons.unpack_bits` (composed
with the `ast.literal_eval` text decoding at cache.py line 548) — the
inverse transform, recovering the original array. -/
def unpack_bits (p : PackedBits) : Val := p.blob

/-- On-disk contents of one file, as one of the four supported encodings of
`FileCache` plus the present-but-byte-empty case for the record (csv)
encoding (`pandas.errors.EmptyDataError` is raised only for a file with no
content at all, which `_load_cache` converts to an empty mapping). -/
inductive FileData where
  | pickleData (data : List (Key × Val))
  | csvEmpty
  | csvData (rows : List (Key × PackedBits))
  | parquetData (rows : List (Key × Val))
  | h5Data (datasets : List (Key × Val))
  deriving Repr, DecidableEq

/-- A filesystem: a mapping from path to file contents. -/
abbrev FS := List (String × FileData)

/-- `FileCache.SUPPORTED_TYPES` (cache.py line 459). -/
def FileCache.SUPPORTED_TYPES : List String :=
  ["pickle", "pkl", "csv", "parquet", "pq", "hdf5", "h5"]

/-- `FileCache` (cache.py lines 450-685): the tabular file cache.  The
resident mapping is the dict the loaders produce (for the hdf5 encoding
the open `h5py.File` handle is modelled by its dataset mapping, which is
what `items()` materializes).  Values in a file cache are arrays. -/
structure FileCache where
  mol_hasher : Mol → Key
  cache : List (Key × Val)
  cache_file : Option String
  file_type : String

/-- `FileCache._load_cache` (cache.py lines 526-561), returning the
resident mapping or the construction error it propagates: the hdf5/h5
branch opens the file handle (failing when the file is absent or not an
hdf5 store); otherwise an absent file yields an empty mapping; the
pickle branch loads the dumped mapping; the csv branch parses the
two-column record file, decoding each value through
`unpack_bits(ast.literal_eval(...))`, and turns the specific
present-but-empty case (`pandas.errors.EmptyDataError`) into an empty
mapping; the parquet branch reads the `keys`/`values` columns.  A loaded
dataframe is converted to a dict keyed by `keys` (cache.py lines 560-561);
any parse failure for a present-but-malformed file propagates. -/
def FileCache.loadCacheData (fs : FS) (path : String) (file_type : String) :
    Except PyError (List (Key × Val)) :=
  if file_type = "hdf5" ∨ file_type = "h5" then
    match dictFind fs path with
    | some (FileData.h5Data ds) => Except.ok ds
    | some _ => Except.error (PyError.valueError "not an hdf5 store")
    | none => Except.error (PyError.valueError "cannot open file")
  else if (dictFind fs path).isNone then Except.ok []
  else if file_type = "pickle" ∨ file_type = "pkl" then
    match dictFind fs path with
    | some (FileData.pickleData d) => Except.ok d
    | _ => Except.error (PyError.valueError "not a pickle dump")
  else if file_type = "csv" then
    match dictFind fs path with
    | some FileData.csvEmpty => Except.ok []
    | some (FileData.csvData rows) =>
      Except.ok (rows.map (fun r => (r.1, unpack_bits r.2)))
    | _ => Except.error (PyError.valueError "csv parse error")
  else if file_type = "parquet" ∨ file_type = "pq" then
    match dictFind fs path with
    | some (FileData.parquetData rows) => Except.ok rows
    | _ => Except.error (PyError.valueError "parquet parse error")
  else Except.ok []

/-- `FileCache.__init__` (cache.py lines 461-507): reject a `file_type`
outside `SUPPORTED_TYPES` with `ValueError`; then load from `cache_file`
only when it is given and the path exists on the filesystem, otherwise
start from an empty mapping. -/
def FileCache.init (fs : FS) (cache_file : Option String) (file_type : String)
    (mol_hasher : Mol → Key) : Except PyError FileCache :=
  if file_type ∉ FileCache.SUPPORTED_TYPES then
    Except.error (PyError.valueError "Unsupported file type")
  else
    match cache_file with
    | some p =>
      if (dictFind fs p).isSome then
        match FileCache.loadCacheData fs p file_type with
        | Except.ok data => Except.ok ⟨mol_hasher, data, some p, file_type⟩
        | Except.error e => Except.error e
      else Except.ok ⟨mol_hasher, [], some p, file_type⟩
    | none => Except.ok ⟨mol_hasher, [], none, file_type⟩

/-- `FileCache.save_to_file` (cache.py lines 604-644): resolve the target
path and encoding (defaulting to the constructor's), then write the
resident mapping: a pickle dump of `to_dict()`, the two-column record file
with bit-packed values (`to_dataframe(pack_bits=True)`; the header is
always written, so the result is a csv file with rows, possibly zero of
them), the columnar parquet file, or one hdf5 dataset per key
(`create_dataset` fails when a dataset name repeats); any other encoding
tag raises `ValueError`. -/
def FileCache.save_to_file (fc : FileCache) (fs : FS) (filepath : Option String)
    (file_type : Option String) : Except PyError FS :=
  match filepath.orElse (fun _ => fc.cache_file) with
  | none => Except.error (PyError.valueError "no target path")
  | some path =>
    let ft := file_type.getD fc.file_type
    if ft = "pkl" ∨ ft = "pickle" then
      Except.ok (dictInsert fs path (FileData.pickleData fc.cache))
    else if ft = "csv" then
      Except.ok (dictInsert fs path
        (FileData.csvData (fc.cache.map (fun r => (r.1, pack_bits r.2)))))
    else if ft = "parquet" ∨ ft = "pq" then
      Except.ok (dictInsert fs path (FileData.parquetData fc.cache))
    else if ft = "hdf5" ∨ ft = "h5" then
      if (fc.cache.map Prod.fst).Nodup then
        Except.ok (dictInsert fs path (FileData.h5Data fc.cache))
      else Except.error (PyError.valueError "dataset name already exists")
    else Except.error (PyError.valueError "Unsupported output protocol")

/-- `FileCache.load_from_file` (cache.py lines 577-586): construct a fresh
`FileCache` pointed at the file. -/
def FileCache.load_from_file (fs : FS) (filepath : String) (file_type : String)
    (mol_hasher : Mol → Key) : Except PyError FileCache :=
  FileCache.init fs (some filepath) file_type mol_hasher

/-- The resident mapping of a successfully constructed `FileCache`
(`none` when construction failed): lets concrete constructions be
evaluated without comparing the function-valued `mol_hasher` field. -/
def FileCache.cacheOf : Except PyError FileCache → Option (List (Key × Val))
  | Except.ok fc => some fc.cache
  | Except.error _ => none

/-- Concrete hasher used by the witness scenarios. -/
def exHasher : Mol → Key := fun m => String.append "k" m

/-- Concrete featurizer used by the witness scenarios: `f(x) = [len(x)]`
with no declared dtype (mirrors the spec's concrete scenario). -/
def exFeat : Featurizer := ⟨fun xs => xs.map (fun x => some [Int.ofNat x.length]), none⟩

/-- Concrete input batch used by the witness scenarios. -/
def exMols : List Mol := ["a", "bb", "a"]

/-- Concrete empty in-memory cache used by the witness scenarios. -/
def exEmptyCache : DataCache := ⟨exHasher, []⟩

/-- Concrete member cache lacking key `"K"` used by chain witnesses. -/
def exA : DataCache := ⟨id, []⟩

/-- Concrete member cache mapping key `"K"` to an array, used by chain
witnesses. -/
def exB : DataCache := ⟨id, [("K", some [5])]⟩

/-- Concrete member cache mapping key `"K"` to Python `None`, used by the
none-is-a-miss chain witness. -/
def exN : DataCache := ⟨id, [("K", none)]⟩

/-- Concrete file cache resident mapping used by the round-trip witness. -/
def exFileCache : FileCache := ⟨exHasher, [("a", [1, 2]), ("b", [3])], some "orig.parquet", "parquet"⟩

theorem dictFind_insert_self {α : Type} (l : List (String × α)) (k : String) (v : α) :
    dictFind (dictInsert l k v) k = some v := by
  induction l with
  | nil => simp [dictInsert, dictFind]
  | cons p t ih =>
    obtain ⟨a, b⟩ := p
    by_cases hk : a = k
    · subst hk; simp [dictInsert, dictFind]
    · simp [dictInsert, hk, dictFind, ih]

theorem dictFind_insert_other {α : Type} (l : List (String × α)) (k : String) (v : α)
    (k' : String) (h : k' ≠ k) : dictFind (dictInsert l k v) k' = dictFind l k' := by
  induction l with
  | nil => simp [dictInsert, dictFind, Ne.symm h]
  | cons p t ih =>
    obtain ⟨a, b⟩ := p
    by_cases hk : a = k
    · subst hk
      simp [dictInsert, dictFind, Ne.symm h]
    · by_cases hk' : a = k'
      · simp [dictInsert, hk, dictFind, hk', h]
      · simp [dictInsert, hk, dictFind, hk', ih]

theorem isSome_dictFind_insert {α : Type} (l : List (String × α)) (k : String) (v : α)
    (k' : String) (h : (dictFind l k').isSome = true) :
    (dictFind (dictInsert l k v) k').isSome = true := by
  by_cases hk : k' = k
  · subst hk; simp [dictFind_insert_self]
  · rw [dictFind_insert_other _ _ _ _ hk]; exact h

theorem foldl_dictInsert_mono {α : Type} (h : Mol → Key) (kvs : List (Mol × α)) :
    ∀ (acc : List (Key × α)) (k0 : Key), (dictFind acc k0).isSome = true →
      (dictFind (kvs.foldl (fun a kv => dictInsert a (h kv.1) kv.2) acc) k0).isSome = true := by
  induction kvs with
  | nil => intro acc k0 hh; simpa using hh
  | cons p t ih =>
    intro acc k0 hh
    exact ih _ _ (isSome_dictFind_insert _ _ _ _ hh)

theorem foldl_dictInsert_mem {α : Type} (h : Mol → Key) (kvs : List (Mol × α)) :
    ∀ (acc : List (Key × α)) (k : Mol) (v : α), (k, v) ∈ kvs →
      (dictFind (kvs.foldl (fun a kv => dictInsert a (h kv.1) kv.2) acc) (h k)).isSome = true := by
  induction kvs with
  | nil => intro acc k v hm; cases hm
  | cons p t ih =>
    intro acc k v hm
    rcases List.mem_cons.mp hm with heq | ht
    · subst heq
      exact foldl_dictInsert_mono h t _ _ (by simp [dictFind_insert_self])
    · exact ih _ _ _ ht

theorem zip_map_self {α β : Type} (f : α → β) (l : List α) :
    (l.map f).zip l = l.map (fun x => (f x, x)) := by
  induction l with
  | nil => rfl
  | cons x t ih => simp [ih]

theorem filter_map_eq {α β : Type} (f : α → β) (p : β → Bool) (l : List α) :
    (l.map f).filter p = (l.filter (fun x => p (f x))).map f := by
  induction l with
  | nil => rfl
  | cons x t ih => by_cases h : p (f x) <;> simp [List.filter_cons, h, ih]

theorem exists_mem_zip_of_mem {α β : Type} (l1 : List α) (l2 : List β) (a : α) :
    a ∈ l1 → l1.length ≤ l2.length → ∃ b, (a, b) ∈ l1.zip l2 := by
  induction l1 generalizing l2 with
  | nil => intro ha _; cases ha
  | cons x t ih =>
    intro ha hl
    cases l2 with
    | nil => simp at hl
    | cons y t2 =>
      rcases List.mem_cons.mp ha with heq | hmem
      · exact ⟨y, by simp [heq]⟩
      · obtain ⟨b, hb⟩ := ih t2 hmem (by simp at hl; omega)
        exact ⟨b, List.mem_cons_of_mem _ hb⟩

theorem applyCast_length (f : Featurizer) (xs : List PyVal) :
    (f.applyCast xs).length = xs.length := by
  unfold Featurizer.applyCast
  cases f.dtype <;> simp

theorem compute_eq (c : DataCache) (mols : List Mol) (f : Featurizer) :
    c.compute mols f =
      if 0 < (c.unseenQueries mols).length then
        ⟨(c.updateList (((c.unseenQueries mols).map c.mol_hasher).zip
            (f.applyCast (f.fn (c.unseenQueries mols))))).fetch mols,
          c.updateList (((c.unseenQueries mols).map c.mol_hasher).zip
            (f.applyCast (f.fn (c.unseenQueries mols)))),
          [c.unseenQueries mols]⟩
      else ⟨c.fetch mols, c, []⟩ := by
  have hpairs : ((mols.map c.mol_hasher).zip mols).filter (fun p => ! c.containsKey p.1)
      = (c.unseenQueries mols).map (fun m => (c.mol_hasher m, m)) := by
    rw [zip_map_self, filter_map_eq]
    rfl
  simp only [DataCache.compute, hpairs, List.map_map]
  have hfst : (Prod.fst ∘ fun m => (c.mol_hasher m, m)) = c.mol_hasher := rfl
  have hsnd : (Prod.snd ∘ fun m => (c.mol_hasher m, m)) = fun (m : Mol) => m := rfl
  rw [hfst, hsnd, List.map_id']

theorem compute_post_hasher (c : DataCache) (mols : List Mol) (f : Featurizer) :
    (c.compute mols f).post.mol_hasher = c.mol_hasher := by
  rw [compute_eq]
  split <;> rfl

theorem compute_out_eq_fetch_post (c : DataCache) (mols : List Mol) (f : Featurizer) :
    (c.compute mols f).out = (c.compute mols f).post.fetch mols := by
  rw [compute_eq]
  split <;> rfl

theorem updateList_containsKey_of_contains (c : DataCache) (kvs : List (Mol × PyVal))
    (key : Mol) (h : c.containsKey key = true) :
    (c.updateList kvs).containsKey key = true := by
  unfold DataCache.containsKey at h ⊢
  unfold DataCache.updateList
  exact foldl_dictInsert_mono c.mol_hasher kvs c.cache _ h

theorem updateList_containsKey_of_mem (c : DataCache) (kvs : List (Mol × PyVal))
    (k : Mol) (v : PyVal) (hm : (k, v) ∈ kvs) :
    (c.updateList kvs).containsKey k = true := by
  unfold DataCache.containsKey DataCache.updateList
  exact foldl_dictInsert_mem c.mol_hasher kvs c.cache k v hm

theorem compute_post_contains (c : DataCache) (mols : List Mol) (f : Featurizer)
    (hf : ∀ xs, (f.fn xs).length = xs.length) :
    ∀ m ∈ mols, (c.compute mols f).post.containsKey (c.mol_hasher m) = true := by
  intro m hm
  rw [compute_eq]
  by_cases hq : 0 < (c.unseenQueries mols).length
  · rw [if_pos hq]
    by_cases hseen : c.containsKey (c.mol_hasher m) = true
    · exact updateList_containsKey_of_contains _ _ _ hseen
    · have hfalse : c.containsKey (c.mol_hasher m) = false := by
        cases hcc : c.containsKey (c.mol_hasher m)
        · rfl
        · exact absurd hcc hseen
      have hmem : m ∈ c.unseenQueries mols := by
        unfold DataCache.unseenQueries
        rw [List.mem_filter]
        exact ⟨hm, by rw [hfalse]; rfl⟩
      have hmem2 : c.mol_hasher m ∈ (c.unseenQueries mols).map c.mol_hasher :=
        List.mem_map_of_mem _ hmem
      have hlen : ((c.unseenQueries mols).map c.mol_hasher).length ≤
          (f.applyCast (f.fn (c.unseenQueries mols))).length := by
        rw [applyCast_length, hf, List.length_map]
      obtain ⟨w, hw⟩ := exists_mem_zip_of_mem _ _ _ hmem2 hlen
      exact updateList_containsKey_of_mem _ _ _ _ hw
  · rw [if_neg hq]
    have hempty : c.unseenQueries mols = [] := by
      cases hq2 : c.unseenQueries mols with
      | nil => rfl
      | cons a t => rw [hq2] at hq; simp at hq
    unfold DataCache.unseenQueries at hempty
    have := List.filter_eq_nil_iff.mp hempty m hm
    show c.containsKey (c.mol_hasher m) = true
    simpa using this

/-- C1: a compute-or-fetch call (`_Cache.__call__`) invokes the featurizer
at most once, and only on the sub-list of input objects whose derived key
is not already contained in the cache, in input order; when every input
key is already present the featurizer is not invoked at all, so a second
call with the same batch and featurizer returns the same outputs (and
state) without invoking the featurizer again.  The hypothesis is the
featurizer contract: it returns one value per input object. -/
theorem dataCache_call_featurizer_once (c : DataCache) (mols : List Mol) (f : Featurizer)
    (hf : ∀ xs, (f.fn xs).length = xs.length) :
    (c.compute mols f).calls =
        (if c.unseenQueries mols = [] then [] else [c.unseenQueries mols])
  ∧ (c.compute mols f).calls.length ≤ 1
  ∧ ((c.compute mols f).post.compute mols f).calls = []
  ∧ ((c.compute mols f).post.compute mols f).out = (c.compute mols f).out
  ∧ ((c.compute mols f).post.compute mols f).post = (c.compute mols f).post := by
  have hpost := compute_post_contains c mols f hf
  have hph := compute_post_hasher c mols f
  have hempty2 : (c.compute mols f).post.unseenQueries mols = [] := by
    unfold DataCache.unseenQueries
    apply List.filter_eq_nil_iff.mpr
    intro m hm
    rw [hph, hpost m hm]
    simp
  have hsecond : (c.compute mols f).post.compute mols f =
      ⟨(c.compute mols f).post.fetch mols, (c.compute mols f).post, []⟩ := by
    rw [compute_eq, hempty2]
    simp
  refine ⟨?_, ?_, ?_, ?_, ?_⟩
  · rw [compute_eq]
    by_cases hq : c.unseenQueries mols = []
    · have : ¬ 0 < (c.unseenQueries mols).length := by rw [hq]; simp
      rw [if_neg this, if_pos hq]
    · have : 0 < (c.unseenQueries mols).length := List.length_pos.mpr hq
      rw [if_pos this, if_neg hq]
  · rw [compute_eq]
    split <;> simp
  · rw [hsecond]
  · rw [hsecond]
    exact (compute_out_eq_fetch_post c mols f).symm
  · rw [hsecond]

/-- C1 witness: concrete instance — an empty cache, the batch
`["a", "bb", "a"]` and the length featurizer; the second call performs no
featurizer invocation. -/
theorem dataCache_call_featurizer_once_witness :
    (exEmptyCache.compute exMols exFeat).calls.length ≤ 1
  ∧ ((exEmptyCache.compute exMols exFeat).post.compute exMols exFeat).calls = [] :=
  ⟨(dataCache_call_featurizer_once exEmptyCache exMols exFeat
      (fun xs => by simp [exFeat])).2.1,
   (dataCache_call_featurizer_once exEmptyCache exMols exFeat
      (fun xs => by simp [exFeat])).2.2.1⟩

/-- C2: a compute-or-fetch call returns exactly `self.fetch(mols)` over the
original input list — a second full derive-and-lookup pass against the
post-write store — so the output has the input's length and its i-th
element is the value found under the re-derived key of the i-th original
input object (hits and misses alike, in input order). -/
theorem dataCache_call_order_preserving (c : DataCache) (mols : List Mol) (f : Featurizer) :
    (c.compute mols f).out = (c.compute mols f).post.fetch mols
  ∧ (c.compute mols f).out = mols.map (fun m =>
      (dictFind (c.compute mols f).post.cache
        ((c.compute mols f).post.mol_hasher ((c.compute mols f).post.mol_hasher m))).getD none)
  ∧ (c.compute mols f).out.length = mols.length := by
  have h1 := compute_out_eq_fetch_post c mols f
  refine ⟨h1, ?_, ?_⟩
  · rw [h1]
    unfold DataCache.fetch DataCache.get
    rw [List.map_map]
    rfl
  · rw [h1]
    unfold DataCache.fetch
    simp

theorem containsKey_false_get_none (c : DataCache) (k : Mol)
    (h : c.containsKey k = false) : c.get k none = none := by
  unfold DataCache.containsKey at h
  unfold DataCache.get
  cases hd : dictFind c.cache (c.mol_hasher k) with
  | none => rfl
  | some v => rw [hd] at h; simp at h

theorem getAux_all_none (l : List DataCache) (k : Mol) (d : PyVal)
    (h : ∀ c ∈ l, c.get k none = none) : CacheList.getAux l k d = d := by
  induction l with
  | nil => rfl
  | cons c t ih =>
    unfold CacheList.getAux
    rw [h c (List.mem_cons_self c t)]
    exact ih (fun x hx => h x (List.mem_cons_of_mem _ hx))

theorem getAux_append_none (A : List DataCache) (rest : List DataCache) (k : Mol) (d : PyVal)
    (h : ∀ a ∈ A, a.get k none = none) :
    CacheList.getAux (A ++ rest) k d = CacheList.getAux rest k d := by
  induction A with
  | nil => rfl
  | cons a t ih =>
    have ha := h a (List.mem_cons_self a t)
    simp only [List.cons_append, CacheList.getAux, ha]
    exact ih (fun x hx => h x (List.mem_cons_of_mem _ hx))

theorem getItemAux_all_none (l : List DataCache) (k : Mol)
    (h : ∀ c ∈ l, c.get k none = none) :
    CacheList.getItemAux l k = Except.error (PyError.keyError k) := by
  induction l with
  | nil => rfl
  | cons c t ih =>
    unfold CacheList.getItemAux
    rw [h c (List.mem_cons_self c t)]
    exact ih (fun x hx => h x (List.mem_cons_of_mem _ hx))

theorem getAux_eq_findSome (l : List DataCache) (k : Mol) (d : PyVal) :
    CacheList.getAux l k d =
      (match l.findSome? (fun c => c.get k none) with
       | some v => some v
       | none => d) := by
  induction l with
  | nil => rfl
  | cons c t ih =>
    unfold CacheList.getAux
    rw [List.findSome?_cons]
    cases c.get k none with
    | none => exact ih
    | some v => rfl

theorem updateList_single_get (c : DataCache) (k : Mol) (v : PyVal) :
    (c.updateList [(k, v)]).get k none = v := by
  unfold DataCache.updateList DataCache.get
  show (dictFind (dictInsert c.cache (c.mol_hasher k) v) (c.mol_hasher k)).getD none = v
  rw [dictFind_insert_self]
  rfl

theorem countP_all_false (l : List DataCache) (p : DataCache → Bool)
    (h : ∀ c ∈ l, p c = false) : l.countP p = 0 := by
  apply List.countP_eq_zero.mpr
  intro a ha
  rw [h a ha]
  simp

/-- C4: `CacheList.__call__` raises `NotImplementedError` for every chain
and all arguments, invokes the featurizer on no batch, and leaves the
member caches unchanged. -/
theorem cacheList_call_capability_error (cl : CacheList) (mols : List Mol) (f : Featurizer) :
    (cl.call mols f).1 = Except.error (PyError.notImplementedError
        "Dynamic updating of a cache list using a featurizer is not supported!")
  ∧ (cl.call mols f).2.1 = cl
  ∧ (cl.call mols f).2.2 = [] :=
  ⟨rfl, rfl, rfl⟩

/-- C5: `CacheList.get` probes the members in listed order and returns the
value of the first member whose `get` yields a hit; in particular for a
chain `[A, B]` where `A` lacks the key and `B` maps it to a value, the
chain returns B's value, and when every member lacks the key the supplied
default is returned. -/
theorem cacheList_get_first_hit (caches : List DataCache) (k : Mol) (d : PyVal) :
    (CacheList.get ⟨caches⟩ k d =
      (match caches.findSome? (fun c => c.get k none) with
       | some v => some v
       | none => d))
  ∧ (∀ A B : DataCache, ∀ v : Val, A.containsKey k = false →
      dictFind B.cache (B.mol_hasher k) = some (some v) →
      CacheList.get ⟨[A, B]⟩ k d = some v)
  ∧ ((∀ c ∈ caches, c.containsKey k = false) → CacheList.get ⟨caches⟩ k d = d) := by
  refine ⟨getAux_eq_findSome caches k d, ?_, ?_⟩
  · intro A B v hA hB
    show CacheList.getAux [A, B] k d = some v
    unfold CacheList.getAux
    rw [containsKey_false_get_none A k hA]
    show CacheList.getAux [B] k d = some v
    unfold CacheList.getAux
    have : B.get k none = some v := by
      unfold DataCache.get
      rw [hB]
      rfl
    rw [this]
  · intro hall
    exact getAux_all_none caches k d
      (fun c hc => containsKey_false_get_none c k (hall c hc))

/-- C5 witness: the chain `[exA, exB]` where `exA` lacks `"K"` and `exB`
maps it to `[5]` returns `[5]`; the chain `[exA]` returns the default. -/
theorem cacheList_get_first_hit_witness :
    CacheList.get ⟨[exA, exB]⟩ "K" none = some [5]
  ∧ CacheList.get ⟨[exA]⟩ "K" (some [0]) = some [0] :=
  ⟨(cacheList_get_first_hit [exA, exB] "K" none).2.1 exA exB [5] (by decide) (by decide),
   (cacheList_get_first_hit [exA] "K" (some [0])).2.2 (by decide)⟩

theorem getAux_modify_hit (caches : List DataCache) (i : Nat) (k : Mol) (v : PyVal)
    (hi : i < caches.length) (hmiss : ∀ c ∈ caches, c.containsKey k = false) :
    CacheList.getAux (modifyIdx caches i (fun c => c.updateList [(k, v)])) k none = v := by
  induction caches generalizing i with
  | nil => simp at hi
  | cons c t ih =>
    cases i with
    | zero =>
      simp only [modifyIdx, CacheList.getAux, updateList_single_get]
      cases v with
      | some w => rfl
      | none =>
        exact getAux_all_none t k none
          (fun x hx => containsKey_false_get_none x k
            (hmiss x (List.mem_cons_of_mem _ hx)))
    | succ n =>
      have hc := containsKey_false_get_none c k (hmiss c (List.mem_cons_self c t))
      simp only [modifyIdx, CacheList.getAux, hc]
      exact ih n (by simpa using Nat.lt_of_succ_lt_succ (by simpa using hi))
        (fun x hx => hmiss x (List.mem_cons_of_mem _ hx))

theorem countP_modify_one (caches : List DataCache) (i : Nat) (k : Mol) (v : PyVal)
    (hi : i < caches.length) (hmiss : ∀ c ∈ caches, c.containsKey k = false) :
    (modifyIdx caches i (fun c => c.updateList [(k, v)])).countP
      (fun c => c.containsKey k) = 1 := by
  induction caches generalizing i with
  | nil => simp at hi
  | cons c t ih =>
    cases i with
    | zero =>
      have hhit : (c.updateList [(k, v)]).containsKey k = true :=
        updateList_containsKey_of_mem c [(k, v)] k v (List.mem_cons_self _ _)
      have hrest : t.countP (fun c => c.containsKey k) = 0 :=
        countP_all_false t _ (fun x hx => hmiss x (List.mem_cons_of_mem _ hx))
      simp [modifyIdx, List.countP_cons, hhit, hrest]
    | succ n =>
      have hc := hmiss c (List.mem_cons_self c t)
      have hrec := ih n (by simpa using Nat.lt_of_succ_lt_succ (by simpa using hi))
        (fun x hx => hmiss x (List.mem_cons_of_mem _ hx))
      simp [modifyIdx, List.countP_cons, hc, hrec]

theorem modifyIdx_getElem (l : List DataCache) (i : Nat) (f : DataCache → DataCache)
    (hi : i < l.length) : (modifyIdx l i f)[i]? = (l[i]?).map f := by
  induction l generalizing i with
  | nil => simp at hi
  | cons c t ih =>
    cases i with
    | zero => simp [modifyIdx]
    | succ n =>
      simp only [modifyIdx]
      rw [List.getElem?_cons_succ, List.getElem?_cons_succ]
      exact ih n (by simpa using Nat.lt_of_succ_lt_succ (by simpa using hi))

/-- C6: when every member of a chain initially lacks key K,
`CacheList.update {K: V}` writes through exactly one member — the randomly
chosen one, whose draw is made explicit as the index `i` — so that
exactly one member contains K afterwards, that member maps the (hashed)
key to V, and `chain.get(K)` then returns V. -/
theorem cacheList_update_random_shard (caches : List DataCache) (i : Nat) (k : Mol) (v : PyVal)
    (hi : i < caches.length)
    (hmiss : ∀ c ∈ caches, c.containsKey k = false) :
    ((CacheList.update ⟨caches⟩ i [(k, v)]).caches.countP (fun c => c.containsKey k)) = 1
  ∧ (∃ c', (CacheList.update ⟨caches⟩ i [(k, v)]).caches[i]? = some c'
       ∧ dictFind c'.cache (c'.mol_hasher k) = some v)
  ∧ CacheList.get (CacheList.update ⟨caches⟩ i [(k, v)]) k none = v := by
  refine ⟨countP_modify_one caches i k v hi hmiss, ?_,
    getAux_modify_hit caches i k v hi hmiss⟩
  obtain ⟨x, hx⟩ : ∃ x, caches[i]? = some x := ⟨_, List.getElem?_eq_getElem hi⟩
  refine ⟨x.updateList [(k, v)], ?_, ?_⟩
  · show (modifyIdx caches i _)[i]? = _
    rw [modifyIdx_getElem caches i _ hi, hx]
    rfl
  · show dictFind (x.updateList [(k, v)]).cache
        ((x.updateList [(k, v)]).mol_hasher k) = some v
    unfold DataCache.updateList
    exact dictFind_insert_self x.cache (x.mol_hasher k) v

/-- C6 witness: the two-member chain `[exA, exB]` (both lacking `"X"`),
choosing index 1, after writing `{"X": [7]}`. -/
theorem cacheList_update_random_shard_witness :
    ((CacheList.update ⟨[exA, exB]⟩ 1 [("X", some [7])]).caches.countP
        (fun c => c.containsKey "X")) = 1
  ∧ CacheList.get (CacheList.update ⟨[exA, exB]⟩ 1 [("X", some [7])]) "X" none = some [7] :=
  ⟨(cacheList_update_random_shard [exA, exB] 1 "X" (some [7]) (by decide) (by decide)).1,
   (cacheList_update_random_shard [exA, exB] 1 "X" (some [7]) (by decide) (by decide)).2.2⟩

/-- C9: iterating a `CacheList` always raises `AttributeError`, because
`__iter__` reads `self.cache`, an attribute no `CacheList` defines (its
members are stored under `self.caches`), so no element is ever yielded. -/
theorem cacheList_iter_attribute_error (cl : CacheList) :
    cl.iter = Except.error (PyError.attributeError "cache") := rfl

/-- C10: a chain treats a member entry whose stored value is Python `None`
as a miss: with members `A ++ [c] ++ B` where every member of A misses and
`c` maps the key to `None`, `get` skips past `c` to the later members; if
no member holds a non-`None` value the default is returned and indexed
access raises `KeyError` — even though the chain's containment test
reports `True` because `c` contains the key. -/
theorem cacheList_none_value_is_miss (A B : List DataCache) (c : DataCache) (k : Mol)
    (d : PyVal)
    (hA : ∀ a ∈ A, a.get k none = none)
    (hc : dictFind c.cache (c.mol_hasher k) = some none) :
    CacheList.get ⟨A ++ c :: B⟩ k d = CacheList.get ⟨B⟩ k d
  ∧ CacheList.containsKey ⟨A ++ c :: B⟩ k = true
  ∧ ((∀ b ∈ B, b.get k none = none) →
      CacheList.get ⟨A ++ c :: B⟩ k d = d
      ∧ CacheList.getItem ⟨A ++ c :: B⟩ k = Except.error (PyError.keyError k)) := by
  have hcget : c.get k none = none := by
    unfold DataCache.get
    rw [hc]
    rfl
  have hAc : ∀ a ∈ A ++ [c], a.get k none = none := by
    intro a ha
    rcases List.mem_append.mp ha with h1 | h2
    · exact hA a h1
    · rw [List.mem_singleton.mp h2]
      exact hcget
  refine ⟨?_, ?_, ?_⟩
  · show CacheList.getAux (A ++ c :: B) k d = CacheList.getAux B k d
    have : A ++ c :: B = (A ++ [c]) ++ B := by simp
    rw [this]
    exact getAux_append_none (A ++ [c]) B k d hAc
  · show (A ++ c :: B).any (fun x => x.containsKey k) = true
    rw [List.any_eq_true]
    refine ⟨c, List.mem_append_right A (List.mem_cons_self c B), ?_⟩
    unfold DataCache.containsKey
    rw [hc]
    rfl
  · intro hB
    have hall : ∀ x ∈ A ++ c :: B, x.get k none = none := by
      intro x hx
      rcases List.mem_append.mp hx with h1 | h2
      · exact hA x h1
      · rcases List.mem_cons.mp h2 with rfl | h3
        · exact hcget
        · exact hB x h3
    exact ⟨getAux_all_none _ k d hall, getItemAux_all_none _ k hall⟩

/-- C10 witness: the chain `[exN, exA]` where `exN` maps `"K"` to `None`
and `exA` lacks it: `get` falls through to the default, indexed access
raises `KeyError`, and containment reports `True`. -/
theorem cacheList_none_value_is_miss_witness :
    CacheList.get ⟨[exN, exA]⟩ "K" (some [0]) = some [0]
  ∧ CacheList.containsKey ⟨[exN, exA]⟩ "K" = true :=
  ⟨((cacheList_none_value_is_miss [] [exA] exN "K" (some [0]) (by simp) (by decide)).2.2
      (by decide)).1,
   (cacheList_none_value_is_miss [] [exA] exN "K" (some [0]) (by simp) (by decide)).2.1⟩

/-- C7: `MolToKey.to_state_dict` raises its "cannot serialize" error if and
only if the object was constructed from a caller-supplied callable (whose
strategy name is unset); from a supported strategy name or from `None`
(defaulting to the named default strategy) it succeeds, the state holds
the strategy name, and `from_state_dict` reconstructs an equal `MolToKey`. -/
theorem molToKey_state_dict_roundtrip (arg : Option HashArg) (mtk : MolToKey)
    (h : MolToKey.init arg = Except.ok mtk) :
    ((∃ f, arg = some (HashArg.fn f)) ↔ exOk (MolToKey.to_state_dict mtk) = false)
  ∧ (∀ s, MolToKey.to_state_dict mtk = Except.ok s →
      mtk.hash_name = some s ∧ MolToKey.from_state_dict s = Except.ok mtk) := by
  cases arg with
  | none =>
    have hmtk : mtk = ⟨dm_unique_id, some "dm.unique_id"⟩ := by
      unfold MolToKey.init at h
      exact (Except.ok.injEq _ _ ▸ congrArg id h).symm ▸ (Except.ok.inj h).symm
    subst hmtk
    constructor
    · constructor
      · rintro ⟨f, hf⟩
        cases hf
      · intro hbad
        simp [MolToKey.to_state_dict, exOk] at hbad
    · intro s hs
      have : s = "dm.unique_id" := by
        unfold MolToKey.to_state_dict at hs
        exact (Except.ok.inj hs).symm
      subst this
      exact ⟨rfl, rfl⟩
  | some a =>
    cases a with
    | fn f =>
      have hmtk : mtk = ⟨f, none⟩ := by
        unfold MolToKey.init at h
        exact (Except.ok.inj h).symm
      subst hmtk
      constructor
      · constructor
        · intro _
          rfl
        · intro _
          exact ⟨f, rfl⟩
      · intro s hs
        cases hs
    | name s0 =>
      cases hfind : dictFind SUPPORTED_HASH_FN s0 with
      | none =>
        simp only [MolToKey.init] at h
        rw [hfind] at h
        cases h
      | some f =>
        have hmtk : mtk = ⟨f, some s0⟩ := by
          simp only [MolToKey.init] at h
          rw [hfind] at h
          exact (Except.ok.inj h).symm
        subst hmtk
        constructor
        · constructor
          · rintro ⟨g, hg⟩
            cases hg
          · intro hbad
            simp [MolToKey.to_state_dict, exOk] at hbad
        · intro s hs
          have hss : s = s0 := by
            unfold MolToKey.to_state_dict at hs
            exact (Except.ok.inj hs).symm
          subst hss
          refine ⟨rfl, ?_⟩
          simp only [MolToKey.from_state_dict, MolToKey.init]
          rw [hfind]

/-- C7 witness: construct from the supported name `"dm.to_inchikey"`;
serialization succeeds and deserialization reconstructs the same object. -/
theorem molToKey_state_dict_roundtrip_witness :
    MolToKey.from_state_dict "dm.to_inchikey" =
      Except.ok ⟨dm_to_inchikey, some "dm.to_inchikey"⟩ := by
  have h := molToKey_state_dict_roundtrip (some (HashArg.name "dm.to_inchikey"))
      ⟨dm_to_inchikey, some "dm.to_inchikey"⟩ (by rfl)
  exact (h.2 "dm.to_inchikey" rfl).2

/-- C3 counterexample: constructing a `FileCache` with the supported file
type `"csv"` and a cache file path that does not exist on the filesystem
does NOT raise a construction error — it succeeds and yields an empty
cache (the constructor's exists-guard routes the absent-file case to
`self.cache = {}`). -/
theorem fileCache_init_missing_file_counterexample :
    FileCache.cacheOf (FileCache.init [] (some "precomputed.csv") "csv" exHasher) = some []
  ∧ "csv" ∈ FileCache.SUPPORTED_TYPES := by
  exact ⟨by decide, by decide⟩

/-- C3 (amended): constructing a `FileCache` with a supported `file_type`
and a `cache_file` path that does not exist succeeds and yields an empty
cache (absence is treated like emptiness, not as an error), and
constructing it from a present-but-byte-empty record (csv) file also
succeeds and yields an empty cache. -/
theorem fileCache_init_missing_or_empty (fs : FS) (path : String) (ftype : String)
    (h : Mol → Key)
    (hsupp : ftype ∈ FileCache.SUPPORTED_TYPES) :
    (dictFind fs path = none →
      FileCache.cacheOf (FileCache.init fs (some path) ftype h) = some [])
  ∧ (dictFind fs path = some FileData.csvEmpty →
      FileCache.cacheOf (FileCache.init fs (some path) "csv" h) = some []) := by
  constructor
  · intro hnone
    simp only [FileCache.init]
    rw [if_neg (fun hn => hn hsupp)]
    simp [hnone, FileCache.cacheOf]
  · intro hempty
    simp only [FileCache.init]
    rw [if_neg (fun hn => hn (by decide : "csv" ∈ FileCache.SUPPORTED_TYPES))]
    simp [hempty, FileCache.loadCacheData, FileCache.cacheOf]

/-- C3 witness: a filesystem holding one byte-empty csv file at
`"data.csv"`; construction succeeds with an empty cache. -/
theorem fileCache_init_missing_or_empty_witness :
    FileCache.cacheOf (FileCache.init [("data.csv", FileData.csvEmpty)]
      (some "data.csv") "csv" exHasher) = some [] :=
  (fileCache_init_missing_or_empty [("data.csv", FileData.csvEmpty)] "data.csv" "csv"
    exHasher (by decide)).2 (by decide)

theorem pack_unpack_map (l : List (Key × Val)) :
    (l.map (fun r => (r.1, pack_bits r.2))).map (fun r => (r.1, unpack_bits r.2)) = l := by
  rw [List.map_map]
  have hc : ((fun (r : Key × PackedBits) => (r.1, unpack_bits r.2)) ∘
      fun (r : Key × Val) => (r.1, pack_bits r.2)) = fun r => r := by
    funext r
    rfl
  rw [hc, List.map_id']

/-- C8: for every supported file encoding, saving the resident mapping
with `save_to_file` and loading it back with `load_from_file` under the
same `file_type` succeeds and reproduces the key→value mapping exactly
(the resident mapping, being a dict, has unique keys — the `Nodup`
hypothesis). -/
theorem fileCache_save_load_roundtrip (fc : FileCache) (fs : FS) (path : String)
    (ftype : String) (h : Mol → Key)
    (hsupp : ftype ∈ FileCache.SUPPORTED_TYPES)
    (hnd : (fc.cache.map Prod.fst).Nodup) :
    ∃ fs2, fc.save_to_file fs (some path) (some ftype) = Except.ok fs2
      ∧ ∃ fc2, FileCache.load_from_file fs2 path ftype h = Except.ok fc2
          ∧ fc2.cache = fc.cache := by
  fin_cases hsupp
  · exact ⟨dictInsert fs path (FileData.pickleData fc.cache),
      by simp [FileCache.save_to_file, Option.orElse],
      ⟨h, fc.cache, some path, "pickle"⟩,
      by simp [FileCache.load_from_file, FileCache.init, FileCache.SUPPORTED_TYPES,
        FileCache.loadCacheData, dictFind_insert_self], rfl⟩
  · exact ⟨dictInsert fs path (FileData.pickleData fc.cache),
      by simp [FileCache.save_to_file, Option.orElse],
      ⟨h, fc.cache, some path, "pkl"⟩,
      by simp [FileCache.load_from_file, FileCache.init, FileCache.SUPPORTED_TYPES,
        FileCache.loadCacheData, dictFind_insert_self], rfl⟩
  · exact ⟨dictInsert fs path
        (FileData.csvData (fc.cache.map (fun r => (r.1, pack_bits r.2)))),
      by simp [FileCache.save_to_file, Option.orElse],
      ⟨h, (fc.cache.map (fun r => (r.1, pack_bits r.2))).map (fun r => (r.1, unpack_bits r.2)),
        some path, "csv"⟩,
      by simp [FileCache.load_from_file, FileCache.init, FileCache.SUPPORTED_TYPES,
        FileCache.loadCacheData, dictFind_insert_self],
      pack_unpack_map fc.cache⟩
  · exact ⟨dictInsert fs path (FileData.parquetData fc.cache),
      by simp [FileCache.save_to_file, Option.orElse],
      ⟨h, fc.cache, some path, "parquet"⟩,
      by simp [FileCache.load_from_file, FileCache.init, FileCache.SUPPORTED_TYPES,
        FileCache.loadCacheData, dictFind_insert_self], rfl⟩
  · exact ⟨dictInsert fs path (FileData.parquetData fc.cache),
      by simp [FileCache.save_to_file, Option.orElse],
      ⟨h, fc.cache, some path, "pq"⟩,
      by simp [FileCache.load_from_file, FileCache.init, FileCache.SUPPORTED_TYPES,
        FileCache.loadCacheData, dictFind_insert_self], rfl⟩
  · exact ⟨dictInsert fs path (FileData.h5Data fc.cache),
      by simp [FileCache.save_to_file, Option.orElse, hnd],
      ⟨h, fc.cache, some path, "hdf5"⟩,
      by simp [FileCache.load_from_file, FileCache.init, FileCache.SUPPORTED_TYPES,
        FileCache.loadCacheData, dictFind_insert_self], rfl⟩
  · exact ⟨dictInsert fs path (FileData.h5Data fc.cache),
      by simp [FileCache.save_to_file, Option.orElse, hnd],
      ⟨h, fc.cache, some path, "h5"⟩,
      by simp [FileCache.load_from_file, FileCache.init, FileCache.SUPPORTED_TYPES,
        FileCache.loadCacheData, dictFind_insert_self], rfl⟩

/-- C8 witness: the concrete two-entry mapping saved to `"cache.csv"` in
the csv encoding and loaded back. -/
theorem fileCache_save_load_roundtrip_witness :
    ∃ fs2, exFileCache.save_to_file [] (some "cache.csv") (some "csv") = Except.ok fs2
      ∧ ∃ fc2, FileCache.load_from_file fs2 "cache.csv" "csv" exHasher = Except.ok fc2
          ∧ fc2.cache = exFileCache.cache :=
  fileCache_save_load_roundtrip exFileCache [] "cache.csv" "csv" exHasher
    (by decide) (by decide)

